import Mathlib

/-!
Verification development for the e7Tasks repository.

Part A embeds the CRUD demo (`src/main.rs`, `src/entity/user.rs`): a user
table with `update_user`, `delete_user` and `filtered_users`.  The database
connection is modelled as a list of rows plus an optional injected failure,
so that the error-propagation behaviour of the Rust code is observable.

Part B embeds the raster stamp-drawing engine described by the design
specification (PixelCanvas, CircleRasterizer, StrokeSession,
HistoryManager); its source is not part of `src/`, so the definitions are
modelled from the specification text.
-/

namespace E7Tasks

/-- A row of the `users` table (`Model` in `src/entity/user.rs`):
primary key `id`, text columns `name` and `surname`. -/
structure User where
  id : Int
  name : String
  surname : String
deriving DecidableEq

/-- Database errors relevant to the embedded code: sea_orm's
`DbErr::RecordNotFound(msg)` and a constructor standing for every other
`DbErr` variant. -/
inductive DbErr where
  | recordNotFound (msg : String)
  | other (msg : String)
deriving DecidableEq

/-- The database connection state: the rows of the `users` table, plus an
optional injected failure.  When `failure` is set, every database
operation fails with that error, which lets the embedding express how the
Rust functions propagate errors of the underlying operations. -/
structure Db where
  rows : List User
  failure : Option DbErr
deriving DecidableEq

/-- Embeds sea_orm's `ActiveModel::update` as called by `update_user`:
an UPDATE of all columns at primary key `id`.  When no row with that id
exists, sea_orm returns `DbErr::RecordNotFound`; otherwise the row is
replaced and the new state returned. -/
def activeModelUpdate (db : Db) (id : Int) (name surname : String) :
    Except DbErr Db :=
  match db.failure with
  | some e => .error e
  | none =>
      if db.rows.any (fun u => decide (u.id = id)) then
        .ok { db with rows := db.rows.map (fun u =>
          if u.id = id then ⟨id, name, surname⟩ else u) }
      else
        .error (.recordNotFound "None of the records are updated")

/-- Embeds `update_user` (`src/entity/user.rs:82-101`): runs the update,
matches on the result, swallows `RecordNotFound` (the Rust code only logs
a warning), returns every other error, and otherwise returns `Ok`. -/
def update_user (db : Db) (id : Int) (name surname : String) :
    Except DbErr Db :=
  match activeModelUpdate db id name surname with
  | .ok db2 => .ok db2
  | .error (.recordNotFound _) => .ok db
  | .error e => .error e

/-- Embeds `Entity::find_by_id(id).one(db)` as called by `delete_user`:
looks up the row with primary key `id`. -/
def findById (db : Db) (id : Int) : Except DbErr (Option User) :=
  match db.failure with
  | some e => .error e
  | none => .ok (db.rows.find? (fun u => decide (u.id = id)))

/-- Embeds sea_orm's `Model::delete` as called by `delete_user`: a DELETE
of the row with the model's primary key. -/
def modelDelete (db : Db) (u : User) : Except DbErr Db :=
  match db.failure with
  | some e => .error e
  | none => .ok { db with rows := db.rows.filter (fun v => decide (v.id ≠ u.id)) }

/-- Embeds `delete_user` (`src/entity/user.rs:103-113`): looks the row up
by id (propagating lookup errors with `?`), deletes it when found
(propagating deletion errors with `?`), and when the row is absent only
logs a warning and returns `Ok` without touching the database. -/
def delete_user (db : Db) (id : Int) : Except DbErr Db :=
  match findById db id with
  | .error e => .error e
  | .ok none => .ok db
  | .ok (some u) => modelDelete db u

/-- Embeds `get_all_users` (`src/entity/user.rs:66-68`):
`Entity::find().all(db)`, returning every row in table order. -/
def get_all_users (db : Db) : Except DbErr (List User) :=
  match db.failure with
  | some e => .error e
  | none => .ok db.rows

/-- Embeds `filtered_users` (`src/main.rs:207-231`): fetches all users,
keeps those whose `name` starts with the given filter string (keeping
everything when the filter is absent), and renders each kept user as
`"{name},{surname}"`, propagating any error of `get_all_users`. -/
def filtered_users (db : Db) (filterPre : Option String) :
    Except DbErr (List String) :=
  match get_all_users db with
  | .ok allUsers =>
      .ok ((allUsers.filter (fun x =>
        match filterPre with
        | some p => x.name.startsWith p
        | none => true)).map (fun x => x.name ++ "," ++ x.surname))
  | .error err => .error err

/-- Modelled from the spec: an RGB color triple (each channel one byte of
the raster buffer). -/
structure RGB where
  r : Nat
  g : Nat
  b : Nat
deriving DecidableEq

/-- Modelled from the spec: PixelCanvas — fixed width and height and a
contiguous row-major buffer of 3-byte RGB pixels (spec §3).  The code
owning it is not under `src/`. -/
structure Canvas where
  width : Nat
  height : Nat
  buf : List Nat
deriving DecidableEq

/-- The PixelCanvas buffer invariant from spec §3: buffer length always
equals width × height × 3. -/
def Canvas.wf (c : Canvas) : Prop :=
  c.buf.length = c.width * c.height * 3

instance (c : Canvas) : Decidable c.wf := by
  unfold Canvas.wf; infer_instance

/-- Modelled from the spec: write one pixel of the row-major RGB buffer
at in-bounds coordinates. -/
def Canvas.setPixel (c : Canvas) (px py : Nat) (col : RGB) : Canvas :=
  let base := (py * c.width + px) * 3
  { c with buf := ((c.buf.set base col.r).set (base + 1) col.g).set (base + 2) col.b }

/-- Read one pixel of the row-major RGB buffer. -/
def Canvas.getPixel (c : Canvas) (px py : Nat) : RGB :=
  let base := (py * c.width + px) * 3
  ⟨c.buf.getD base 0, c.buf.getD (base + 1) 0, c.buf.getD (base + 2) 0⟩

/-- The disc membership test of the CircleRasterizer (spec §4.2):
inclusive squared-distance comparison. -/
def inDisc (cx cy : Int) (r : Nat) (px py : Int) : Bool :=
  decide ((px - cx) ^ 2 + (py - cy) ^ 2 ≤ (r : Int) ^ 2)

/-- Clipping test of the CircleRasterizer: the candidate pixel lies in
[0, width) × [0, height). -/
def Canvas.inBounds (c : Canvas) (px py : Int) : Bool :=
  decide (0 ≤ px ∧ px < (c.width : Int) ∧ 0 ≤ py ∧ py < (c.height : Int))

/-- Modelled from the spec: the bounding-box scan of the CircleRasterizer
(spec §4.2) — all candidate pixels of [cx−r, cx+r] × [cy−r, cy+r], row by
row. -/
def candidates (cx cy : Int) (r : Nat) : List (Int × Int) :=
  (List.range (2 * r + 1)).flatMap (fun (dy : Nat) =>
    (List.range (2 * r + 1)).map (fun (dx : Nat) =>
      (cx - (r : Int) + (dx : Int), cy - (r : Int) + (dy : Int))))

/-- One step of the rasterizer scan: test the candidate pixel for
clipping and disc membership, and write it when both hold. -/
def stampStep (cx cy : Int) (r : Nat) (col : RGB) (c : Canvas)
    (p : Int × Int) : Canvas :=
  if c.inBounds p.1 p.2 && inDisc cx cy r p.1 p.2 then
    c.setPixel p.1.toNat p.2.toNat col
  else c

/-- Modelled from the spec: `stamp_circle` (spec §4.1/§4.2) — scan the
bounding box and stamp every in-bounds candidate inside the disc; code
not under `src/`. -/
def Canvas.stamp_circle (c : Canvas) (cx cy : Int) (r : Nat) (col : RGB) :
    Canvas :=
  (candidates cx cy r).foldl (stampStep cx cy r col) c

/-- Modelled from the spec: the engine state seen by HistoryManager — the
committed canvas plus the undo and redo stacks of snapshots (spec §3,
§4.4); code not under `src/`. -/
structure Engine where
  committed : Canvas
  undoStack : List Canvas
  redoStack : List Canvas
deriving DecidableEq

/-- Modelled from the spec: `record(pre_state)` (spec §4.4) — push the
pre-commit snapshot onto `undo`, clear `redo`; always succeeds. -/
def Engine.record (e : Engine) (pre : Canvas) : Engine :=
  { e with undoStack := pre :: e.undoStack, redoStack := [] }

/-- Modelled from the spec: the commit protocol (spec §4.3) — snapshot
the committed canvas, record it (clearing redo), then stamp onto the
committed canvas. -/
def Engine.commit (e : Engine) (cx cy : Int) (r : Nat) (col : RGB) :
    Engine :=
  let recorded := e.record e.committed
  { recorded with committed := e.committed.stamp_circle cx cy r col }

/-- Modelled from the spec: `undo()` (spec §4.4) — on an empty undo stack
return nothing and change nothing; otherwise pop the top snapshot, push
the current committed canvas onto `redo`, and make the popped snapshot
the committed canvas. -/
def Engine.undo (e : Engine) : Option Canvas × Engine :=
  match e.undoStack with
  | [] => (none, e)
  | top :: rest =>
      (some top, ⟨top, rest, e.committed :: e.redoStack⟩)

/-- Modelled from the spec: `redo()` (spec §4.4) — symmetric to `undo`,
popping from `redo` and pushing the current committed canvas onto
`undo`. -/
def Engine.redo (e : Engine) : Option Canvas × Engine :=
  match e.redoStack with
  | [] => (none, e)
  | top :: rest =>
      (some top, ⟨top, e.committed :: e.undoStack, rest⟩)

/-- Modelled from the spec: the two drawing modes of StrokeSession
(spec §4.3). -/
inductive Mode where
  | fixedRadius
  | dragToSize
deriving DecidableEq

/-- Modelled from the spec: StrokeSession states — `Idle`, or
`Active{anchor, mode}` (spec §3). -/
inductive SessionState where
  | idle
  | active (anchor : Int × Int) (mode : Mode)
deriving DecidableEq

/-- Modelled from the spec: DrawConfig — radius and color read at stamp
time (spec §3). -/
structure DrawConfig where
  radius : Nat
  color : RGB
deriving DecidableEq

/-- Modelled from the spec: the DragToSize radius — the Euclidean
distance from anchor to pointer, rounded toward zero to an integer
(spec §4.3); for integer coordinates this is `Nat.sqrt` of the squared
distance. -/
def distRadius (anchor pointer : Int × Int) : Nat :=
  Nat.sqrt (((pointer.1 - anchor.1) ^ 2 + (pointer.2 - anchor.2) ^ 2).toNat)

/-- Modelled from the spec: `StrokeSession.update` (spec §4.3) — in an
Active DragToSize session, recompute the preview as a clone of the
committed canvas with the rasterizer applied at (anchor, distance radius,
configured color), leaving the engine untouched; in every other state a
no-op returning no preview. -/
def SessionState.update (s : SessionState) (e : Engine) (cfg : DrawConfig)
    (pointer : Int × Int) : Option Canvas × Engine :=
  match s with
  | .active anchor .dragToSize =>
      (some (e.committed.stamp_circle anchor.1 anchor.2
        (distRadius anchor pointer) cfg.color), e)
  | _ => (none, e)

theorem getD_set_ne (l : List Nat) (i j v d : Nat) (h : i ≠ j) :
    (l.set i v).getD j d = l.getD j d := by
  rw [List.getD_eq_getElem?_getD, List.getD_eq_getElem?_getD,
    List.getElem?_set_ne h]

theorem getD_set_self (l : List Nat) (i v d : Nat) (h : i < l.length) :
    (l.set i v).getD i d = v := by
  rw [List.getD_eq_getElem?_getD, List.getElem?_set_eq_of_lt v h]
  rfl

theorem base_lt (W H px py : Nat) (hx : px < W) (hy : py < H) :
    (py * W + px) * 3 + 2 < W * H * 3 := by
  have h1 : py * W + px < H * W := by
    have h2 : (py + 1) * W ≤ H * W := Nat.mul_le_mul_right W (by omega)
    have h3 : (py + 1) * W = py * W + W := by ring
    omega
  have h4 : W * H = H * W := Nat.mul_comm W H
  omega

theorem rowMajor_inj (W px py qx qy : Nat) (hpx : px < W) (hqx : qx < W)
    (h : py * W + px = qy * W + qx) : px = qx ∧ py = qy := by
  rcases Nat.lt_trichotomy py qy with hlt | heq | hgt
  · exfalso
    have h1 : (py + 1) * W ≤ qy * W := Nat.mul_le_mul_right W (by omega)
    have h2 : (py + 1) * W = py * W + W := by ring
    omega
  · subst heq
    omega
  · exfalso
    have h1 : (qy + 1) * W ≤ py * W := Nat.mul_le_mul_right W (by omega)
    have h2 : (qy + 1) * W = qy * W + W := by ring
    omega

theorem setPixel_width (c : Canvas) (px py : Nat) (col : RGB) :
    (c.setPixel px py col).width = c.width := rfl

theorem setPixel_height (c : Canvas) (px py : Nat) (col : RGB) :
    (c.setPixel px py col).height = c.height := rfl

theorem setPixel_length (c : Canvas) (px py : Nat) (col : RGB) :
    (c.setPixel px py col).buf.length = c.buf.length := by
  simp [Canvas.setPixel, List.length_set]

theorem getPixel_setPixel_self (c : Canvas) (px py : Nat) (col : RGB)
    (hwf : c.wf) (hx : px < c.width) (hy : py < c.height) :
    (c.setPixel px py col).getPixel px py = col := by
  have hlen : (py * c.width + px) * 3 + 2 < c.buf.length := by
    have h1 := base_lt c.width c.height px py hx hy
    unfold Canvas.wf at hwf
    omega
  unfold Canvas.getPixel Canvas.setPixel
  cases col with
  | mk cr cg cb =>
    simp only [RGB.mk.injEq]
    refine ⟨?_, ?_, ?_⟩
    · rw [getD_set_ne _ _ _ _ _ (by omega), getD_set_ne _ _ _ _ _ (by omega),
        getD_set_self _ _ _ _ (by omega)]
    · rw [getD_set_ne _ _ _ _ _ (by omega),
        getD_set_self _ _ _ _ (by rw [List.length_set]; omega)]
    · rw [getD_set_self _ _ _ _ (by rw [List.length_set, List.length_set]; omega)]

theorem getPixel_setPixel_ne (c : Canvas) (px py qx qy : Nat) (col : RGB)
    (hpx : px < c.width) (hqx : qx < c.width)
    (hne : (px, py) ≠ (qx, qy)) :
    (c.setPixel px py col).getPixel qx qy = c.getPixel qx qy := by
  have hk : py * c.width + px ≠ qy * c.width + qx := by
    intro h
    rcases rowMajor_inj c.width px py qx qy hpx hqx h with ⟨h1, h2⟩
    exact hne (by rw [h1, h2])
  unfold Canvas.getPixel Canvas.setPixel
  simp only [RGB.mk.injEq]
  refine ⟨?_, ?_, ?_⟩
  · rw [getD_set_ne _ _ _ _ _ (by omega), getD_set_ne _ _ _ _ _ (by omega),
      getD_set_ne _ _ _ _ _ (by omega)]
  · rw [getD_set_ne _ _ _ _ _ (by omega), getD_set_ne _ _ _ _ _ (by omega),
      getD_set_ne _ _ _ _ _ (by omega)]
  · rw [getD_set_ne _ _ _ _ _ (by omega), getD_set_ne _ _ _ _ _ (by omega),
      getD_set_ne _ _ _ _ _ (by omega)]

theorem stampStep_width (cx cy : Int) (r : Nat) (col : RGB) (c : Canvas)
    (p : Int × Int) : (stampStep cx cy r col c p).width = c.width := by
  unfold stampStep
  split
  · rfl
  · rfl

theorem stampStep_height (cx cy : Int) (r : Nat) (col : RGB) (c : Canvas)
    (p : Int × Int) : (stampStep cx cy r col c p).height = c.height := by
  unfold stampStep
  split
  · rfl
  · rfl

theorem stampStep_length (cx cy : Int) (r : Nat) (col : RGB) (c : Canvas)
    (p : Int × Int) : (stampStep cx cy r col c p).buf.length = c.buf.length := by
  unfold stampStep
  split
  · exact setPixel_length ..
  · rfl

theorem stampStep_wf (cx cy : Int) (r : Nat) (col : RGB) (c : Canvas)
    (p : Int × Int) (hwf : c.wf) : (stampStep cx cy r col c p).wf := by
  unfold Canvas.wf
  rw [stampStep_length, stampStep_width, stampStep_height]
  exact hwf

theorem stampStep_getPixel_ne (cx cy : Int) (r : Nat) (col : RGB)
    (c : Canvas) (p : Int × Int) (qx qy : Nat)
    (hqx : qx < c.width)
    (hne : p ≠ ((qx : Int), (qy : Int))) :
    (stampStep cx cy r col c p).getPixel qx qy = c.getPixel qx qy := by
  unfold stampStep
  split
  case isTrue hg =>
    rw [Bool.and_eq_true] at hg
    have hb := hg.1
    unfold Canvas.inBounds at hb
    rw [decide_eq_true_eq] at hb
    obtain ⟨h1, h2, h3, h4⟩ := hb
    apply getPixel_setPixel_ne
    · omega
    · exact hqx
    · intro hcontra
      rw [Prod.mk.injEq] at hcontra
      obtain ⟨hc1, hc2⟩ := hcontra
      apply hne
      apply Prod.ext
      · simp only; omega
      · simp only; omega
  case isFalse => rfl

theorem stampStep_getPixel_self (cx cy : Int) (r : Nat) (col : RGB)
    (c : Canvas) (qx qy : Nat)
    (hwf : c.wf) (hqx : qx < c.width) (hqy : qy < c.height)
    (hd : inDisc cx cy r (qx : Int) (qy : Int) = true) :
    (stampStep cx cy r col c ((qx : Int), (qy : Int))).getPixel qx qy = col := by
  have hb : c.inBounds (qx : Int) (qy : Int) = true := by
    unfold Canvas.inBounds
    rw [decide_eq_true_eq]
    refine ⟨by omega, by omega, by omega, by omega⟩
  unfold stampStep
  simp only [hb, hd, Bool.and_self, if_true]
  have e1 : ((qx : Int)).toNat = qx := Int.toNat_natCast qx
  have e2 : ((qy : Int)).toNat = qy := Int.toNat_natCast qy
  simp only [e1, e2]
  exact getPixel_setPixel_self c qx qy col hwf hqx hqy

theorem foldl_stampStep_width (cx cy : Int) (r : Nat) (col : RGB)
    (L : List (Int × Int)) (c : Canvas) :
    (L.foldl (stampStep cx cy r col) c).width = c.width := by
  induction L generalizing c with
  | nil => rfl
  | cons p L ih =>
    rw [List.foldl_cons, ih, stampStep_width]

theorem foldl_stampStep_height (cx cy : Int) (r : Nat) (col : RGB)
    (L : List (Int × Int)) (c : Canvas) :
    (L.foldl (stampStep cx cy r col) c).height = c.height := by
  induction L generalizing c with
  | nil => rfl
  | cons p L ih =>
    rw [List.foldl_cons, ih, stampStep_height]

theorem foldl_stampStep_length (cx cy : Int) (r : Nat) (col : RGB)
    (L : List (Int × Int)) (c : Canvas) :
    (L.foldl (stampStep cx cy r col) c).buf.length = c.buf.length := by
  induction L generalizing c with
  | nil => rfl
  | cons p L ih =>
    rw [List.foldl_cons, ih, stampStep_length]

theorem foldl_stampStep_getPixel (cx cy : Int) (r : Nat) (col : RGB)
    (L : List (Int × Int)) (c : Canvas) (hwf : c.wf)
    (qx qy : Nat) (hqx : qx < c.width) (hqy : qy < c.height) :
    (L.foldl (stampStep cx cy r col) c).getPixel qx qy =
      if ((qx : Int), (qy : Int)) ∈ L ∧ inDisc cx cy r (qx : Int) (qy : Int) = true
      then col else c.getPixel qx qy := by
  induction L generalizing c with
  | nil => simp
  | cons p L ih =>
    rw [List.foldl_cons]
    have hqx2 : qx < (stampStep cx cy r col c p).width := by
      rw [stampStep_width]; exact hqx
    have hqy2 : qy < (stampStep cx cy r col c p).height := by
      rw [stampStep_height]; exact hqy
    rw [ih (stampStep cx cy r col c p) (stampStep_wf cx cy r col c p hwf) hqx2 hqy2]
    by_cases hd : inDisc cx cy r (qx : Int) (qy : Int) = true
    · by_cases hmem : ((qx : Int), (qy : Int)) ∈ L
      · rw [if_pos ⟨hmem, hd⟩, if_pos ⟨List.mem_cons_of_mem p hmem, hd⟩]
      · rw [if_neg (fun h => hmem h.1)]
        by_cases hp : p = ((qx : Int), (qy : Int))
        · subst hp
          rw [stampStep_getPixel_self cx cy r col c qx qy hwf hqx hqy hd,
            if_pos ⟨List.mem_cons_self _ _, hd⟩]
        · rw [stampStep_getPixel_ne cx cy r col c p qx qy hqx hp, if_neg]
          rintro ⟨hmem2, _⟩
          rcases List.mem_cons.mp hmem2 with h | h
          · exact hp h.symm
          · exact hmem h
    · rw [if_neg (fun h => hd h.2), if_neg (fun h => hd h.2)]
      by_cases hp : p = ((qx : Int), (qy : Int))
      · subst hp
        unfold stampStep
        have hdf : inDisc cx cy r (qx : Int) (qy : Int) = false :=
          Bool.eq_false_iff.mpr hd
        simp [hdf]
      · exact stampStep_getPixel_ne cx cy r col c p qx qy hqx hp

theorem mem_candidates (cx cy : Int) (r : Nat) (a b : Int) :
    (a, b) ∈ candidates cx cy r ↔
      (cx - (r : Int) ≤ a ∧ a ≤ cx + (r : Int)
        ∧ cy - (r : Int) ≤ b ∧ b ≤ cy + (r : Int)) := by
  unfold candidates
  rw [List.mem_flatMap]
  constructor
  · rintro ⟨dy, hdy, hmem⟩
    rw [List.mem_range] at hdy
    rw [List.mem_map] at hmem
    obtain ⟨dx, hdx, heq⟩ := hmem
    rw [List.mem_range] at hdx
    rw [Prod.mk.injEq] at heq
    obtain ⟨h1, h2⟩ := heq
    omega
  · intro h
    refine ⟨(b - (cy - (r : Int))).toNat, ?_, ?_⟩
    · rw [List.mem_range]
      omega
    · rw [List.mem_map]
      refine ⟨(a - (cx - (r : Int))).toNat, ?_, ?_⟩
      · rw [List.mem_range]
        omega
      · rw [Prod.mk.injEq]
        constructor
        · omega
        · omega

theorem inDisc_mem_box (cx cy : Int) (r : Nat) (a b : Int)
    (hd : inDisc cx cy r a b = true) :
    cx - (r : Int) ≤ a ∧ a ≤ cx + (r : Int)
      ∧ cy - (r : Int) ≤ b ∧ b ≤ cy + (r : Int) := by
  unfold inDisc at hd
  rw [decide_eq_true_eq] at hd
  have h1 : (a - cx) ^ 2 ≤ (r : Int) ^ 2 := by nlinarith [sq_nonneg (b - cy)]
  have h2 : (b - cy) ^ 2 ≤ (r : Int) ^ 2 := by nlinarith [sq_nonneg (a - cx)]
  have h3 := abs_le_of_sq_le_sq' h1 (by positivity)
  have h4 := abs_le_of_sq_le_sq' h2 (by positivity)
  omega

/-- C1: for every well-formed canvas, color, signed center and radius,
`stamp_circle` mutates exactly the in-bounds pixels whose squared
distance to the center is at most r²: such a pixel ends up holding the
stamp color, and every other in-bounds pixel keeps its prior value.  For
r = 0 the disc predicate selects exactly the center pixel. -/
theorem stamp_circle_exact (c : Canvas) (cx cy : Int) (r : Nat) (col : RGB)
    (hwf : c.wf) (px py : Nat) (hx : px < c.width) (hy : py < c.height) :
    ((c.stamp_circle cx cy r col).getPixel px py =
      if ((px : Int) - cx) ^ 2 + ((py : Int) - cy) ^ 2 ≤ (r : Int) ^ 2 then col
      else c.getPixel px py)
    ∧ (r = 0 →
      ((((px : Int) - cx) ^ 2 + ((py : Int) - cy) ^ 2 ≤ (r : Int) ^ 2) ↔
        ((px : Int) = cx ∧ (py : Int) = cy))) := by
  constructor
  · unfold Canvas.stamp_circle
    rw [foldl_stampStep_getPixel cx cy r col _ c hwf px py hx hy]
    by_cases hd : ((px : Int) - cx) ^ 2 + ((py : Int) - cy) ^ 2 ≤ (r : Int) ^ 2
    · have hdb : inDisc cx cy r (px : Int) (py : Int) = true := by
        unfold inDisc
        exact decide_eq_true hd
      have hmem : ((px : Int), (py : Int)) ∈ candidates cx cy r := by
        rw [mem_candidates]
        exact inDisc_mem_box cx cy r (px : Int) (py : Int) hdb
      rw [if_pos ⟨hmem, hdb⟩, if_pos hd]
    · have hdb : inDisc cx cy r (px : Int) (py : Int) = false := by
        unfold inDisc
        simpa using hd
      rw [if_neg (by rintro ⟨_, h2⟩; rw [hdb] at h2; cases h2), if_neg hd]
  · intro hr
    subst hr
    constructor
    · intro h
      norm_num at h
      have ha : ((px : Int) - cx) ^ 2 = 0 := by
        nlinarith [sq_nonneg ((px : Int) - cx), sq_nonneg ((py : Int) - cy)]
      have hb : ((py : Int) - cy) ^ 2 = 0 := by
        nlinarith [sq_nonneg ((px : Int) - cx), sq_nonneg ((py : Int) - cy)]
      have ha2 : (px : Int) - cx = 0 := pow_eq_zero_iff two_ne_zero |>.mp ha
      have hb2 : (py : Int) - cy = 0 := pow_eq_zero_iff two_ne_zero |>.mp hb
      omega
    · rintro ⟨h1, h2⟩
      rw [← h1, ← h2]
      simp

/-- Witness for C1 on a concrete 2×2 canvas: the radius-1 disc at the
origin recolors the three pixels inside it and leaves the fourth
untouched. -/
theorem stamp_circle_exact_witness :
    (Canvas.mk 2 2 [0, 0, 0, 0, 0, 0, 0, 0, 0, 0, 0, 0]).wf
    ∧ (0 : Nat) < 2
    ∧ ((Canvas.mk 2 2 [0, 0, 0, 0, 0, 0, 0, 0, 0, 0, 0, 0]).stamp_circle 0 0 1 ⟨9, 8, 7⟩).getPixel 0 0 =
      (if ((0 : Nat) - (0 : Int)) ^ 2 + ((0 : Nat) - (0 : Int)) ^ 2 ≤ ((1 : Nat) : Int) ^ 2
        then (⟨9, 8, 7⟩ : RGB)
        else (Canvas.mk 2 2 [0, 0, 0, 0, 0, 0, 0, 0, 0, 0, 0, 0]).getPixel 0 0) :=
  ⟨by decide, by decide,
   (stamp_circle_exact (Canvas.mk 2 2 [0, 0, 0, 0, 0, 0, 0, 0, 0, 0, 0, 0])
     0 0 1 ⟨9, 8, 7⟩ (by decide) 0 0 (by decide) (by decide)).1⟩

theorem foldl_stampStep_getD_high (cx cy : Int) (r : Nat) (col : RGB)
    (L : List (Int × Int)) (c : Canvas) (i : Nat)
    (hi : c.width * c.height * 3 ≤ i) :
    (L.foldl (stampStep cx cy r col) c).buf.getD i 0 = c.buf.getD i 0 := by
  induction L generalizing c with
  | nil => rfl
  | cons p L ih =>
    rw [List.foldl_cons]
    have hi2 : (stampStep cx cy r col c p).width * (stampStep cx cy r col c p).height * 3 ≤ i := by
      rw [stampStep_width, stampStep_height]
      exact hi
    rw [ih (stampStep cx cy r col c p) hi2]
    unfold stampStep
    split
    case isTrue hg =>
      rw [Bool.and_eq_true] at hg
      have hb := hg.1
      unfold Canvas.inBounds at hb
      rw [decide_eq_true_eq] at hb
      obtain ⟨h1, h2, h3, h4⟩ := hb
      have hx : p.1.toNat < c.width := by omega
      have hy : p.2.toNat < c.height := by omega
      have hbase := base_lt c.width c.height p.1.toNat p.2.toNat hx hy
      unfold Canvas.setPixel
      simp only
      rw [getD_set_ne _ _ _ _ _ (by omega), getD_set_ne _ _ _ _ _ (by omega),
        getD_set_ne _ _ _ _ _ (by omega)]
    case isFalse => rfl

/-- C5: for every canvas, center (however far outside the canvas), radius
and color, `stamp_circle` preserves the buffer length and changes bytes
only at indices below width × height × 3 — out-of-bounds candidates are
clipped, with no wraparound and no out-of-range write. -/
theorem stamp_circle_clips (c : Canvas) (cx cy : Int) (r : Nat) (col : RGB) :
    (c.stamp_circle cx cy r col).buf.length = c.buf.length
    ∧ ∀ i : Nat, (c.stamp_circle cx cy r col).buf.getD i 0 ≠ c.buf.getD i 0 →
        i < c.width * c.height * 3 := by
  constructor
  · exact foldl_stampStep_length cx cy r col (candidates cx cy r) c
  · intro i hne
    by_contra hge
    exact hne (foldl_stampStep_getD_high cx cy r col (candidates cx cy r) c i (by omega))

/-- Witness for C5: stamping a far-off-canvas disc on a concrete 1×1
canvas leaves the buffer untouched, and a centered stamp changes only
byte indices below 3. -/
theorem stamp_circle_clips_witness :
    ((Canvas.mk 1 1 [0, 0, 0]).stamp_circle 100 (-50) 3 ⟨1, 2, 3⟩).buf.length
      = (Canvas.mk 1 1 [0, 0, 0]).buf.length
    ∧ (((Canvas.mk 1 1 [0, 0, 0]).stamp_circle 0 0 0 ⟨1, 2, 3⟩).buf.getD 0 0
        ≠ (Canvas.mk 1 1 [0, 0, 0]).buf.getD 0 0
      ∧ (0 : Nat) < 1 * 1 * 3) :=
  ⟨(stamp_circle_clips (Canvas.mk 1 1 [0, 0, 0]) 100 (-50) 3 ⟨1, 2, 3⟩).1,
   by decide,
   (stamp_circle_clips (Canvas.mk 1 1 [0, 0, 0]) 0 0 0 ⟨1, 2, 3⟩).2 0 (by decide)⟩


/-- C2: for every engine state, committing any stamp and then immediately
calling `undo()` restores the committed canvas to byte-for-byte equality
with its state before the commit (and the popped snapshot is exactly the
pre-commit canvas). -/
theorem undo_after_commit_restores (e : Engine) (cx cy : Int) (r : Nat)
    (col : RGB) :
    ((e.commit cx cy r col).undo).2.committed = e.committed
    ∧ ((e.commit cx cy r col).undo).1 = some e.committed :=
  ⟨rfl, rfl⟩

/-- C3: for every engine state whose undo stack is non-empty, calling
`redo()` immediately after `undo()` restores the committed canvas to
byte-for-byte equality with its state at the moment before the undo. -/
theorem redo_after_undo_restores (e : Engine) (h : e.undoStack ≠ []) :
    (((e.undo).2).redo).2.committed = e.committed
    ∧ (((e.undo).2).redo).1 = some e.committed := by
  obtain ⟨c, us, rs⟩ := e
  cases us with
  | nil => exact absurd rfl h
  | cons top rest => exact ⟨rfl, rfl⟩

/-- Witness for C3 at a concrete engine state with a non-empty undo
stack. -/
theorem redo_after_undo_restores_witness :
    (Engine.mk (Canvas.mk 1 1 [5, 5, 5]) [Canvas.mk 1 1 [0, 0, 0]] []).undoStack ≠ []
    ∧ ((((Engine.mk (Canvas.mk 1 1 [5, 5, 5]) [Canvas.mk 1 1 [0, 0, 0]] []).undo).2).redo).2.committed
        = (Engine.mk (Canvas.mk 1 1 [5, 5, 5]) [Canvas.mk 1 1 [0, 0, 0]] []).committed :=
  ⟨by decide,
   (redo_after_undo_restores
     (Engine.mk (Canvas.mk 1 1 [5, 5, 5]) [Canvas.mk 1 1 [0, 0, 0]] [])
     (by decide)).1⟩

/-- C4: after any commit (equivalently any `record`) the redo stack is
empty, so a subsequent `redo()` is a no-op returning nothing. -/
theorem commit_clears_redo (e : Engine) (cx cy : Int) (r : Nat) (col : RGB)
    (pre : Canvas) :
    (e.commit cx cy r col).redoStack = []
    ∧ (e.record pre).redoStack = []
    ∧ (e.commit cx cy r col).redo = (none, e.commit cx cy r col) :=
  ⟨rfl, rfl, rfl⟩

/-- C7: `undo()` on an empty undo stack returns nothing and changes
nothing, and symmetrically `redo()` on an empty redo stack returns
nothing and changes nothing. -/
theorem undo_redo_empty_noop (e : Engine) :
    (e.undoStack = [] → e.undo = (none, e))
    ∧ (e.redoStack = [] → e.redo = (none, e)) := by
  constructor
  · intro h
    unfold Engine.undo
    rw [h]
  · intro h
    unfold Engine.redo
    rw [h]

/-- Witness for C7 at a concrete engine state with both stacks empty. -/
theorem undo_redo_empty_noop_witness :
    (Engine.mk (Canvas.mk 1 1 [0, 0, 0]) [] []).undoStack = []
    ∧ (Engine.mk (Canvas.mk 1 1 [0, 0, 0]) [] []).redoStack = []
    ∧ (Engine.mk (Canvas.mk 1 1 [0, 0, 0]) [] []).undo
        = (none, Engine.mk (Canvas.mk 1 1 [0, 0, 0]) [] [])
    ∧ (Engine.mk (Canvas.mk 1 1 [0, 0, 0]) [] []).redo
        = (none, Engine.mk (Canvas.mk 1 1 [0, 0, 0]) [] []) :=
  ⟨rfl, rfl,
   (undo_redo_empty_noop (Engine.mk (Canvas.mk 1 1 [0, 0, 0]) [] [])).1 rfl,
   (undo_redo_empty_noop (Engine.mk (Canvas.mk 1 1 [0, 0, 0]) [] [])).2 rfl⟩

/-- C6: in an Active DragToSize session, `update` returns exactly the
preview obtained by applying the rasterizer to a copy of the committed
canvas at (anchor, truncated Euclidean-distance radius, configured
color), and leaves the whole engine state (committed canvas and both
history stacks) unchanged. -/
theorem session_update_preview (s : SessionState) (e : Engine)
    (cfg : DrawConfig) (pointer anchor : Int × Int)
    (h : s = .active anchor .dragToSize) :
    s.update e cfg pointer =
      (some (e.committed.stamp_circle anchor.1 anchor.2
        (distRadius anchor pointer) cfg.color), e) := by
  subst h
  rfl

/-- Witness for C6 at a concrete Active DragToSize session. -/
theorem session_update_preview_witness :
    (SessionState.active (0, 0) .dragToSize : SessionState)
      = .active (0, 0) .dragToSize
    ∧ (SessionState.active (0, 0) .dragToSize).update
        (Engine.mk (Canvas.mk 1 1 [0, 0, 0]) [] []) (DrawConfig.mk 2 ⟨9, 9, 9⟩) (3, 4) =
      (some ((Canvas.mk 1 1 [0, 0, 0]).stamp_circle 0 0
        (distRadius (0, 0) (3, 4)) ⟨9, 9, 9⟩),
       Engine.mk (Canvas.mk 1 1 [0, 0, 0]) [] []) :=
  ⟨rfl,
   session_update_preview (SessionState.active (0, 0) .dragToSize)
     (Engine.mk (Canvas.mk 1 1 [0, 0, 0]) [] [])
     (DrawConfig.mk 2 ⟨9, 9, 9⟩) (3, 4) (0, 0) rfl⟩

/-- C8: `update_user` returns `Ok` even when no row with the given id
exists — the `RecordNotFound` error of the underlying update is
swallowed and the database is left unchanged — while every other
database error is propagated. -/
theorem update_user_swallows_notFound (db : Db) (id : Int)
    (name surname : String) :
    (db.failure = none → (∀ u ∈ db.rows, u.id ≠ id) →
      update_user db id name surname = .ok db)
    ∧ (∀ msg, db.failure = some (.other msg) →
      update_user db id name surname = .error (.other msg)) := by
  constructor
  · intro hf habs
    have hany : db.rows.any (fun u => decide (u.id = id)) = false := by
      simp only [List.any_eq_false, decide_eq_true_eq]
      exact habs
    unfold update_user activeModelUpdate
    rw [hf]
    simp only [hany]
    rfl
  · intro msg hf
    unfold update_user activeModelUpdate
    rw [hf]

/-- Witness for C8: a missing id is swallowed on a failure-free database,
and an injected non-`RecordNotFound` error is propagated. -/
theorem update_user_swallows_notFound_witness :
    ((Db.mk [User.mk 1 "Emil" "Hans"] none).failure = none
      ∧ (∀ u ∈ (Db.mk [User.mk 1 "Emil" "Hans"] none).rows, u.id ≠ 2)
      ∧ update_user (Db.mk [User.mk 1 "Emil" "Hans"] none) 2 "a" "b"
          = .ok (Db.mk [User.mk 1 "Emil" "Hans"] none))
    ∧ ((Db.mk [] (some (.other "boom"))).failure = some (.other "boom")
      ∧ update_user (Db.mk [] (some (.other "boom"))) 2 "a" "b"
          = .error (.other "boom")) :=
  ⟨⟨rfl, by decide,
    (update_user_swallows_notFound (Db.mk [User.mk 1 "Emil" "Hans"] none)
      2 "a" "b").1 rfl (by decide)⟩,
   ⟨rfl,
    (update_user_swallows_notFound (Db.mk [] (some (.other "boom")))
      2 "a" "b").2 "boom" rfl⟩⟩

/-- C9: `delete_user` returns `Ok` whether or not a row with the id
exists; when the id is absent the database is unchanged; it returns an
error exactly when the underlying lookup or deletion fails. -/
theorem delete_user_total (db : Db) (id : Int) :
    (db.failure = none → ∃ db2, delete_user db id = .ok db2)
    ∧ (db.failure = none →
        db.rows.find? (fun u => decide (u.id = id)) = none →
        delete_user db id = .ok db)
    ∧ (∀ e, db.failure = some e → delete_user db id = .error e) := by
  refine ⟨?_, ?_, ?_⟩
  · intro hf
    unfold delete_user findById modelDelete
    rw [hf]
    cases db.rows.find? (fun u => decide (u.id = id)) with
    | none => exact ⟨db, rfl⟩
    | some u => exact ⟨_, rfl⟩
  · intro hf hnone
    unfold delete_user findById
    rw [hf, hnone]
  · intro e hf
    unfold delete_user findById
    rw [hf]

/-- Witness for C9: deletion succeeds with a present id, is a no-op with
an absent id, and propagates an injected failure. -/
theorem delete_user_total_witness :
    ((Db.mk [User.mk 1 "Emil" "Hans"] none).failure = none
      ∧ ∃ db2, delete_user (Db.mk [User.mk 1 "Emil" "Hans"] none) 1 = .ok db2)
    ∧ ((Db.mk [User.mk 1 "Emil" "Hans"] none).failure = none
      ∧ (Db.mk [User.mk 1 "Emil" "Hans"] none).rows.find?
          (fun u => decide (u.id = 2)) = none
      ∧ delete_user (Db.mk [User.mk 1 "Emil" "Hans"] none) 2
          = .ok (Db.mk [User.mk 1 "Emil" "Hans"] none))
    ∧ ((Db.mk [] (some (.other "down"))).failure = some (.other "down")
      ∧ delete_user (Db.mk [] (some (.other "down"))) 1
          = .error (.other "down")) :=
  ⟨⟨rfl, (delete_user_total (Db.mk [User.mk 1 "Emil" "Hans"] none) 1).1 rfl⟩,
   ⟨rfl, by decide,
    (delete_user_total (Db.mk [User.mk 1 "Emil" "Hans"] none) 2).2.1 rfl (by decide)⟩,
   ⟨rfl, (delete_user_total (Db.mk [] (some (.other "down"))) 1).2.2
      (.other "down") rfl⟩⟩

/-- C10: on a failure-free database, `filtered_users` returns exactly the
users whose `name` starts with the filter string — the surname never
participates in the filter, and a missing filter keeps every user — each
rendered as `"name,surname"` in the order `get_all_users` returns the
rows. -/
theorem filtered_users_spec (db : Db) (p : String)
    (h : db.failure = none) :
    filtered_users db (some p) =
      .ok ((db.rows.filter (fun u => u.name.startsWith p)).map
        (fun u => u.name ++ "," ++ u.surname))
    ∧ filtered_users db none =
      .ok (db.rows.map (fun u => u.name ++ "," ++ u.surname)) := by
  constructor
  · unfold filtered_users get_all_users
    rw [h]
  · unfold filtered_users get_all_users
    rw [h]
    simp [List.filter_true]

/-- Witness for C10 on a concrete two-user database: the filter keeps the
row whose name starts with the filter string, drops the other, and
renders name-comma-surname. -/
theorem filtered_users_spec_witness :
    (Db.mk [User.mk 1 "Emil" "Hans", User.mk 2 "Mustermann" "Max"] none).failure = none
    ∧ filtered_users
        (Db.mk [User.mk 1 "Emil" "Hans", User.mk 2 "Mustermann" "Max"] none)
        (some "Em") =
      .ok (((Db.mk [User.mk 1 "Emil" "Hans", User.mk 2 "Mustermann" "Max"] none).rows.filter
        (fun u => u.name.startsWith "Em")).map
        (fun u => u.name ++ "," ++ u.surname)) :=
  ⟨rfl,
   (filtered_users_spec
     (Db.mk [User.mk 1 "Emil" "Hans", User.mk 2 "Mustermann" "Max"] none)
     "Em" rfl).1⟩

end E7Tasks
